import Mathlib

/-!
Verification development for the `wavetable_synth` repository
(`src/src/main.rs`).

The program is a small monophonic wavetable synthesiser: a
`WavetableOscillator` steps through a single-cycle wave table with a
frequency-dependent increment, linearly interpolating between adjacent
table entries; a `DurationSource` wrapper truncates the oscillator's
infinite sample stream to a requested `Duration`; two hash maps give the
note-name → frequency registries for the A=440 Hz and A=432 Hz tuning
standards; `main` parses a tuning-standard argument and plays notes from
key presses.

Embedding conventions:
* `f32` values (table samples, phase, increments, frequencies) are
  modelled as exact rationals `ℚ`; the claims under study are about the
  algebraic structure of the computations, not about `f32` rounding.
* `u32`/`usize` values are modelled as `ℕ`.
* Fallible operations (Rust panics: out-of-bounds indexing, `%` by a
  zero `usize`) are modelled with `Option`, `none` standing for the
  panic.
* `std::time::Duration` is an integer count of nanoseconds, modelled as
  `ℕ` nanoseconds.
-/

/-- Rust `f32 as usize` / `f32 as i64`-style truncation toward zero of a
rational: `⌊q⌋` for `q ≥ 0`, `⌈q⌉` for `q < 0`. -/
def truncQ (q : ℚ) : ℤ :=
  if 0 ≤ q then ⌊q⌋ else ⌈q⌉

/-- Rust `f32 as usize`: truncate toward zero and saturate below at 0
(negative floats cast to `usize` 0). Saturation above at `usize::MAX`
never matters for the inputs considered here. -/
def toUsize (q : ℚ) : ℕ :=
  (truncQ q).toNat

/-- Rust `%` on `f32` (`fmod`): `x - y * trunc (x / y)`, which is exact in
floating point and hence also the exact rational value. `x % 0.0` is NaN
in `f32`; NaN has no rational counterpart, so that branch returns the
junk value `0` — it is unreachable in the code paths studied here (the
modulus is the table length, and a zero-length table already panicked
inside `lerp`). -/
def rustRem (x y : ℚ) : ℚ :=
  if y = 0 then 0 else x - y * (truncQ (x / y) : ℚ)

/-- `struct WavetableOscillator` (main.rs lines 24–29): sampling rate,
wave table, current (fractional) index into the table, and the
frequency-dependent index increment. -/
structure WavetableOscillator where
  sample_rate : ℕ
  wave_table : List ℚ
  index : ℚ
  index_increment : ℚ
deriving DecidableEq

/-- `WavetableOscillator::new` (lines 32–39): stores the arguments
verbatim and starts with `index = 0.0`, `index_increment = 0.0`.
The constructor performs no validation. -/
def WavetableOscillator.new (sample_rate : ℕ) (wave_table : List ℚ) :
    WavetableOscillator :=
  { sample_rate := sample_rate
    wave_table := wave_table
    index := 0
    index_increment := 0 }

/-- `WavetableOscillator::set_frequency` (lines 52–55):
`index_increment = frequency * wave_table.len() / sample_rate`.
No validation is performed. -/
def WavetableOscillator.set_frequency (o : WavetableOscillator) (frequency : ℚ) :
    WavetableOscillator :=
  { o with
    index_increment :=
      frequency * (o.wave_table.length : ℚ) / (o.sample_rate : ℚ) }

/-- `WavetableOscillator::lerp` (lines 68–77):
`truncated_index = index as usize`, `next_index = (truncated_index + 1) %
len`, weights `1 - (index - truncated_index)` and `index -
truncated_index`. `none` models the panics of this body: indexing out of
bounds, and `% 0` on a zero-length table (in that case both lookups are
out of bounds as well). -/
def WavetableOscillator.lerp (o : WavetableOscillator) : Option ℚ :=
  let truncated_index := toUsize o.index
  let next_index := (truncated_index + 1) % o.wave_table.length
  let next_index_weight := o.index - (truncated_index : ℚ)
  match o.wave_table[truncated_index]?, o.wave_table[next_index]? with
  | some a, some b => some ((1 - next_index_weight) * a + next_index_weight * b)
  | _, _ => none

/-- `WavetableOscillator::get_sample` (lines 61–66): produce the
interpolated sample for the current index, then advance the index by the
increment and reduce it with `%` by the table length. Returns the sample
together with the advanced oscillator; `none` propagates a panic from
`lerp`. -/
def WavetableOscillator.get_sample (o : WavetableOscillator) :
    Option (ℚ × WavetableOscillator) :=
  o.lerp.map fun sample =>
    (sample,
      { o with
        index := rustRem (o.index + o.index_increment) (o.wave_table.length : ℚ) })

/-- The phase invariant of the spec: `0 ≤ index < table length`. -/
def phaseInvariant (o : WavetableOscillator) : Prop :=
  0 ≤ o.index ∧ o.index < (o.wave_table.length : ℚ)

instance (o : WavetableOscillator) : Decidable (phaseInvariant o) := by
  unfold phaseInvariant; infer_instance

/- ### Basic lemmas about truncation and the float remainder -/

lemma truncQ_of_nonneg {q : ℚ} (h : 0 ≤ q) : truncQ q = ⌊q⌋ := by
  simp [truncQ, h]

lemma toUsize_lt {q : ℚ} {N : ℕ} (hN : 0 < N) (h : q < (N : ℚ)) :
    toUsize q < N := by
  unfold toUsize truncQ
  by_cases h0 : 0 ≤ q
  · rw [if_pos h0]
    have hfl : ⌊q⌋ < (N : ℤ) := by
      have : (⌊q⌋ : ℚ) ≤ q := Int.floor_le q
      exact_mod_cast Int.floor_lt.mpr (by exact_mod_cast h)
    omega
  · rw [if_neg h0]
    have hc : ⌈q⌉ ≤ 0 := Int.ceil_le.mpr (by exact_mod_cast le_of_lt (lt_of_not_ge h0))
    omega

lemma rustRem_nonneg {x y : ℚ} (hx : 0 ≤ x) (hy : 0 < y) :
    0 ≤ rustRem x y := by
  unfold rustRem
  rw [if_neg (ne_of_gt hy)]
  rw [truncQ_of_nonneg (div_nonneg hx (le_of_lt hy))]
  have h1 : (⌊x / y⌋ : ℚ) ≤ x / y := Int.floor_le _
  have h2 : y * (⌊x / y⌋ : ℚ) ≤ y * (x / y) :=
    mul_le_mul_of_nonneg_left h1 (le_of_lt hy)
  have h3 : y * (x / y) = x := mul_div_cancel₀ x (ne_of_gt hy)
  linarith

lemma rustRem_lt {x y : ℚ} (hy : 0 < y) : rustRem x y < y := by
  unfold rustRem
  rw [if_neg (ne_of_gt hy)]
  by_cases h0 : 0 ≤ x
  · rw [truncQ_of_nonneg (div_nonneg h0 (le_of_lt hy))]
    have h1 : x / y < (⌊x / y⌋ : ℚ) + 1 := Int.lt_floor_add_one _
    have h2 : x < y * ((⌊x / y⌋ : ℚ) + 1) := by
      have := (div_lt_iff hy).mp h1
      linarith [this]
    nlinarith
  · have hxneg : x < 0 := lt_of_not_ge h0
    have hq : ¬ (0 ≤ x / y) := by
      have : x / y < 0 := div_neg_of_neg_of_pos hxneg hy
      linarith
    rw [truncQ, if_neg hq]
    have h1 : x / y ≤ (⌈x / y⌉ : ℚ) := Int.le_ceil _
    have h2 : x ≤ y * (⌈x / y⌉ : ℚ) := by
      have := (div_le_iff hy).mp h1
      linarith [this]
    linarith

/- ### Success and shape of `lerp` / `get_sample` -/

lemma lerp_some (o : WavetableOscillator)
    (hN : 0 < o.wave_table.length)
    (hidx : o.index < (o.wave_table.length : ℚ)) :
    o.lerp = some
      ((1 - (o.index - (toUsize o.index : ℚ))) *
          o.wave_table.getD (toUsize o.index) 0
        + (o.index - (toUsize o.index : ℚ)) *
          o.wave_table.getD ((toUsize o.index + 1) % o.wave_table.length) 0) := by
  have hti : toUsize o.index < o.wave_table.length := toUsize_lt hN hidx
  have hni : (toUsize o.index + 1) % o.wave_table.length < o.wave_table.length :=
    Nat.mod_lt _ hN
  simp only [WavetableOscillator.lerp, List.getElem?_eq_getElem hti,
    List.getElem?_eq_getElem hni, List.getD_eq_getElem?_getD,
    Option.getD_some]

lemma get_sample_eq (o : WavetableOscillator)
    (hN : 0 < o.wave_table.length)
    (hidx : o.index < (o.wave_table.length : ℚ)) :
    o.get_sample = some
      ((1 - (o.index - (toUsize o.index : ℚ))) *
          o.wave_table.getD (toUsize o.index) 0
        + (o.index - (toUsize o.index : ℚ)) *
          o.wave_table.getD ((toUsize o.index + 1) % o.wave_table.length) 0,
        { o with
          index := rustRem (o.index + o.index_increment) (o.wave_table.length : ℚ) }) := by
  unfold WavetableOscillator.get_sample
  rw [lerp_some o hN hidx]
  rfl

/- ### `DurationSource`: bounded playback segment -/

/-- Per-sample elapsed increment `Duration::from_secs_f32(1.0 / r)`, in
nanoseconds. `Duration` stores an integer number of nanoseconds and
`from_secs_f32` rounds its argument to the nearest nanosecond, so the
step is `10^9 / r` rounded to the nearest integer, computed here exactly
as `(2·10^9 + r) / (2r)` in `ℕ` (round half up). The `f32` division
`1.0 / r` carries a relative error below `2^-24`, which does not move
the rounded nanosecond count for the sample rate this program uses: for
`r = 44100` the nearest `f32` to `1/44100` is `12466118 / 2^39`, and
`10^9` times either that value (`22675.7365…`) or the exact quotient
(`22675.7369…`) rounds to `22676` ns; neither is a tie, so
`from_secs_f32`'s half-to-even tie rule is immaterial. For `r = 0` the
division in the code would give `inf` (an overflow panic in
`from_secs_f32`); the value here is junk and unused. -/
def stepNanos (r : ℕ) : ℕ :=
  (2 * 1000000000 + r) / (2 * r)

/-- `struct DurationSource<S>` (lines 106–110), instantiated — as the
program does — with the `WavetableOscillator` as its inner source.
`duration` and `elapsed` are in whole nanoseconds, the resolution of
`std::time::Duration`. -/
structure DurationSource where
  source : WavetableOscillator
  duration : ℕ
  elapsed : ℕ
deriving DecidableEq

/-- `DurationSource::new` (lines 117–123): elapsed starts at zero. -/
def DurationSource.new (source : WavetableOscillator) (duration : ℕ) :
    DurationSource :=
  { source := source, duration := duration, elapsed := 0 }

/-- `Iterator::next` for `DurationSource` (lines 155–166): end the
stream once `elapsed >= duration`; otherwise pull one sample from the
inner oscillator and add `from_secs_f32(1.0 / sample_rate)` to
`elapsed`. The inner pull `self.source.next()` is
`Some(self.get_sample())` (lines 83–85); a `none` here models the
oscillator panicking inside `get_sample` (the oscillator's iterator
itself never returns `None`). -/
def DurationSource.next (ds : DurationSource) : Option (ℚ × DurationSource) :=
  if ds.duration ≤ ds.elapsed then none
  else
    match ds.source.get_sample with
    | some (sample, o') =>
        some (sample,
          { source := o'
            duration := ds.duration
            elapsed := ds.elapsed + stepNanos o'.sample_rate })
    | none => none

/-- The `n`-th item (0-indexed) produced by repeatedly calling
`DurationSource::next`; `none` when the stream has ended (or panicked)
at or before position `n`. -/
def dsNth : ℕ → DurationSource → Option ℚ
  | 0, ds => ds.next.map Prod.fst
  | n + 1, ds =>
    match ds.next with
    | some (_, ds') => dsNth n ds'
    | none => none

/- ### Note registries and the playback entry points -/

/-- `create_note_to_freq_map` (lines 179–195): the A=440 Hz registry.
The `HashMap` is modelled as an association list consulted with
`List.lookup`; the keys are pairwise distinct, so insertion order is
immaterial. -/
def create_note_to_freq_map : List (String × ℚ) :=
  [("A", 440.00), ("A#", 466.16), ("B", 493.88), ("C", 523.25),
   ("C#", 554.37), ("D", 587.33), ("D#", 622.25), ("E", 659.25),
   ("F", 698.46), ("F#", 739.99), ("G", 783.99), ("G#", 830.61)]

/-- `create_note_to_freq_map_432` (lines 197–213): the A=432 Hz
registry. -/
def create_note_to_freq_map_432 : List (String × ℚ) :=
  [("A", 432.00), ("A#", 457.69), ("B", 484.90), ("C", 512.33),
   ("C#", 542.29), ("D", 576.65), ("D#", 608.39), ("E", 645.86),
   ("F", 684.72), ("F#", 725.38), ("G", 768.82), ("G#", 815.51)]

/-- The note-resolution expression shared by `play_note` (line 252) and
`play_notes` (line 231): `note_to_freq_map.get(note).unwrap_or(&440.0)`. -/
def resolveNote (m : List (String × ℚ)) (note : String) : ℚ :=
  (m.lookup note).getD 440

/-- `play_note` (lines 251–259): resolve the note (defaulting to 440),
build a fresh 44100 Hz oscillator over a clone of the wave table, set
its frequency, and wrap it in a `DurationSource` for the requested
duration. Handing the stream to the audio sink (`play_raw`) is external
I/O and is not modelled; the value returned here is the configured
bounded segment the sink would consume. -/
def play_note (note : String) (wave_table : List ℚ)
    (note_to_freq_map : List (String × ℚ)) (durationNanos : ℕ) :
    DurationSource :=
  DurationSource.new
    ((WavetableOscillator.new 44100 wave_table).set_frequency
      (resolveNote note_to_freq_map note))
    durationNanos

/-- `play_notes` (lines 228–238): for each note in order, resolve its
frequency (defaulting to 440), build a fresh 44100 Hz oscillator over a
clone of the table and set its frequency. Streaming to the sink and the
per-note sleep are external I/O; the value here is the list of
configured oscillators, one per requested note. -/
def play_notes (notes : List String) (duration : ℚ) (wave_table : List ℚ)
    (note_to_freq_map : List (String × ℚ)) : List WavetableOscillator :=
  notes.map fun note =>
    (WavetableOscillator.new 44100 wave_table).set_frequency
      (resolveNote note_to_freq_map note)

/-- `args[1].parse::<u32>()` in `main` (line 269): `some` on a decimal
numeral that fits `u32`, `none` otherwise (`.expect` turns `none` into a
panic). -/
def parseStandard (arg : String) : Option ℕ :=
  match arg.toNat? with
  | some n => if n < 4294967296 then some n else none
  | none => none

/-- The note-handling path of `main` (lines 296–306): the pressed
character's uppercase name is looked up in `create_note_to_freq_map()` —
always the A=440 registry — and, when present, played via `play_note`
with that same registry. The parsed `frequency_standard` argument (line
269) is bound but never consulted afterwards, so the resolved frequency
is independent of it; `none` means the key press is ignored. -/
def mainNoteFreq (frequency_standard : ℕ) (note : String) : Option ℚ :=
  match create_note_to_freq_map.lookup note with
  | some _ => some (resolveNote create_note_to_freq_map note)
  | none => none

/- ### Helper lemmas for the duration-bounded stream -/

lemma get_sample_some (o : WavetableOscillator)
    (hN : 0 < o.wave_table.length)
    (hidx : o.index < (o.wave_table.length : ℚ)) :
    ∃ sv o', o.get_sample = some (sv, o')
      ∧ o'.wave_table = o.wave_table
      ∧ o'.sample_rate = o.sample_rate
      ∧ o'.index < (o'.wave_table.length : ℚ) := by
  refine ⟨_, _, get_sample_eq o hN hidx, rfl, rfl, ?_⟩
  have hpos : (0 : ℚ) < (o.wave_table.length : ℚ) := by exact_mod_cast hN
  exact rustRem_lt hpos

lemma dsNth_isSome_iff (d s : ℕ) :
    ∀ (n : ℕ) (o : WavetableOscillator) (e : ℕ),
      0 < o.wave_table.length →
      o.index < (o.wave_table.length : ℚ) →
      s = stepNanos o.sample_rate →
      ((dsNth n ⟨o, d, e⟩).isSome ↔ e + n * s < d) := by
  intro n
  induction n with
  | zero =>
    intro o e hN hidx hs
    obtain ⟨sv, o', hgs, hwt, hsr, hidx'⟩ := get_sample_some o hN hidx
    by_cases hde : d ≤ e
    · simp [dsNth, DurationSource.next, hde]
    · simp only [dsNth, DurationSource.next, if_neg hde, hgs]
      simp only [Option.map_some', Option.isSome_some, true_iff]
      omega
  | succ n ih =>
    intro o e hN hidx hs
    obtain ⟨sv, o', hgs, hwt, hsr, hidx'⟩ := get_sample_some o hN hidx
    by_cases hde : d ≤ e
    · have hnone : dsNth (n + 1) ⟨o, d, e⟩ = none := by
        simp [dsNth, DurationSource.next, hde]
      rw [hnone]
      simp only [Option.isSome_none, Bool.false_eq_true, false_iff, not_lt]
      exact le_trans hde (Nat.le_add_right e _)
    · have hstep2 : dsNth (n + 1) ⟨o, d, e⟩
          = dsNth n ⟨o', d, e + stepNanos o'.sample_rate⟩ := by
        simp [dsNth, DurationSource.next, hde, hgs]
      have hs' : s = stepNanos o'.sample_rate := by rw [hsr]; exact hs
      rw [hstep2, ← hs']
      rw [ih o' (e + s) (by rw [hwt]; exact hN) hidx' hs']
      have hexp : (n + 1) * s = n * s + s := by ring
      rw [hexp]
      generalize n * s = m
      omega

lemma mul_lt_iff_lt_ceilDiv {s : ℕ} (hs : 1 ≤ s) (d n : ℕ) :
    n * s < d ↔ n < (d + s - 1) / s := by
  have h1 : n < (d + s - 1) / s ↔ (n + 1) * s ≤ d + s - 1 := by
    rw [Nat.lt_iff_add_one_le, Nat.le_div_iff_mul_le hs]
  rw [h1, add_one_mul]
  generalize n * s = m
  omega

/- ### Claim theorems -/

/-- C1: for an oscillator whose table has length `N ≥ 1` and whose phase
satisfies `0 ≤ phase < N`, one `get_sample` call returns
`(1 - frac) * table[i0] + frac * table[i1]` with `i0 = ⌊phase⌋`,
`i1 = (i0 + 1) % N`, `frac = phase - i0` — computed from the phase as it
was before the call — and the state it leaves behind has the phase
advanced by the increment and reduced with `%` by `N`. -/
theorem get_sample_interpolates_then_advances (o : WavetableOscillator)
    (hN : 1 ≤ o.wave_table.length) (h0 : 0 ≤ o.index)
    (h1 : o.index < (o.wave_table.length : ℚ)) :
    o.get_sample = some
      ((1 - Int.fract o.index) * o.wave_table.getD (⌊o.index⌋).toNat 0
        + Int.fract o.index *
          o.wave_table.getD (((⌊o.index⌋).toNat + 1) % o.wave_table.length) 0,
        { o with
          index := rustRem (o.index + o.index_increment) (o.wave_table.length : ℚ) }) := by
  have hfl : (0 : ℤ) ≤ ⌊o.index⌋ := Int.floor_nonneg.mpr h0
  have htu : toUsize o.index = (⌊o.index⌋).toNat := by
    unfold toUsize
    rw [truncQ_of_nonneg h0]
  have hc : ((⌊o.index⌋.toNat : ℕ) : ℚ) = (⌊o.index⌋ : ℚ) := by
    exact_mod_cast Int.toNat_of_nonneg hfl
  rw [get_sample_eq o hN h1, htu, hc, Int.self_sub_floor]

/-- Witness for the C1 theorem: table `[3, 5]`, phase `0`,
increment `1`. -/
theorem get_sample_interpolates_then_advances_witness :
    (1 ≤ ([3, 5] : List ℚ).length ∧ (0 : ℚ) ≤ 0
        ∧ (0 : ℚ) < (([3, 5] : List ℚ).length : ℚ))
    ∧ (WavetableOscillator.mk 2 [3, 5] 0 1).get_sample = some
        ((1 - Int.fract ((0 : ℚ))) *
            ([3, 5] : List ℚ).getD (⌊(0 : ℚ)⌋).toNat 0
          + Int.fract ((0 : ℚ)) *
            ([3, 5] : List ℚ).getD
              (((⌊(0 : ℚ)⌋).toNat + 1) % ([3, 5] : List ℚ).length) 0,
          { WavetableOscillator.mk 2 [3, 5] 0 1 with
            index := rustRem ((0 : ℚ) + 1) ((([3, 5] : List ℚ).length : ℚ)) }) :=
  ⟨⟨by norm_num, by norm_num, by norm_num⟩,
    get_sample_interpolates_then_advances
      (WavetableOscillator.mk 2 [3, 5] 0 1)
      (by norm_num) (by norm_num) (by norm_num)⟩

/-- C2: the phase invariant `0 ≤ index < N` holds for a freshly
constructed oscillator over a table of length `≥ 1`, is preserved by
`set_frequency`, and — when the increment is nonnegative — is preserved
by `get_sample`: the advanced phase is reduced by `%` back into
`[0, N)`. -/
theorem phase_invariant_preserved (r : ℕ) (wt : List ℚ) (f : ℚ)
    (o o' : WavetableOscillator) (sv : ℚ)
    (hwt : 1 ≤ wt.length)
    (hinv : phaseInvariant o)
    (hinc : 0 ≤ o.index_increment)
    (hgs : o.get_sample = some (sv, o')) :
    phaseInvariant (WavetableOscillator.new r wt)
    ∧ phaseInvariant (o.set_frequency f)
    ∧ phaseInvariant o' := by
  obtain ⟨h0, h1⟩ := hinv
  have hN : 0 < o.wave_table.length := by
    rcases Nat.eq_zero_or_pos o.wave_table.length with hz | hp
    · exfalso
      rw [hz] at h1
      simp at h1
      linarith
    · exact hp
  have hpos : (0 : ℚ) < (o.wave_table.length : ℚ) := by exact_mod_cast hN
  refine ⟨⟨le_refl 0, ?_⟩, ⟨h0, h1⟩, ?_⟩
  · show (0 : ℚ) < (wt.length : ℚ)
    exact_mod_cast Nat.lt_of_lt_of_le Nat.zero_lt_one hwt
  · rw [get_sample_eq o hN h1] at hgs
    have hpair := Option.some.inj hgs
    injection hpair with hsv ho'
    rw [← ho']
    exact ⟨rustRem_nonneg (add_nonneg h0 hinc) hpos, rustRem_lt hpos⟩

/-- Witness for the C2 theorem: the one-sample table `[0]` at rest. -/
theorem phase_invariant_preserved_witness :
    (1 ≤ ([0] : List ℚ).length
        ∧ phaseInvariant (WavetableOscillator.mk 1 [0] 0 0)
        ∧ (0 : ℚ) ≤ (WavetableOscillator.mk 1 [0] 0 0).index_increment
        ∧ (WavetableOscillator.mk 1 [0] 0 0).get_sample
            = some (0, WavetableOscillator.mk 1 [0] 0 0))
    ∧ (phaseInvariant (WavetableOscillator.new 1 [0])
        ∧ phaseInvariant ((WavetableOscillator.mk 1 [0] 0 0).set_frequency 7)
        ∧ phaseInvariant (WavetableOscillator.mk 1 [0] 0 0)) :=
  ⟨⟨by norm_num, by simp [phaseInvariant], by norm_num,
      by simp [WavetableOscillator.get_sample, WavetableOscillator.lerp,
        toUsize, truncQ, rustRem]⟩,
    phase_invariant_preserved 1 [0] 7
      (WavetableOscillator.mk 1 [0] 0 0) (WavetableOscillator.mk 1 [0] 0 0) 0
      (by norm_num) (by simp [phaseInvariant]) (by norm_num)
      (by simp [WavetableOscillator.get_sample, WavetableOscillator.lerp,
        toUsize, truncQ, rustRem])⟩

/-- C3: `set_frequency f` sets the increment to exactly
`f * table_length / sample_rate`, and a fresh oscillator has phase 0 and
increment 0. -/
theorem new_and_set_frequency_values (r : ℕ) (wt : List ℚ) (f : ℚ)
    (o : WavetableOscillator) (hr : 0 < o.sample_rate) :
    ((WavetableOscillator.new r wt).index = 0
      ∧ (WavetableOscillator.new r wt).index_increment = 0)
    ∧ (o.set_frequency f).index_increment
        = f * (o.wave_table.length : ℚ) / (o.sample_rate : ℚ) :=
  ⟨⟨rfl, rfl⟩, rfl⟩

/-- Witness for the C3 theorem. -/
theorem new_and_set_frequency_values_witness :
    0 < (WavetableOscillator.mk 44100 [1, 2] 0 0).sample_rate
    ∧ (((WavetableOscillator.new 5 [9]).index = 0
        ∧ (WavetableOscillator.new 5 [9]).index_increment = 0)
      ∧ ((WavetableOscillator.mk 44100 [1, 2] 0 0).set_frequency 3).index_increment
          = 3 * ((WavetableOscillator.mk 44100 [1, 2] 0 0).wave_table.length : ℚ)
              / ((WavetableOscillator.mk 44100 [1, 2] 0 0).sample_rate : ℚ)) :=
  ⟨by decide,
    new_and_set_frequency_values 5 [9] 3
      (WavetableOscillator.mk 44100 [1, 2] 0 0) (by decide)⟩

/-- C9: `set_frequency` modifies only the index increment — the sample
rate, the wave table and the current phase are untouched. -/
theorem set_frequency_frame (o : WavetableOscillator) (f : ℚ) :
    (o.set_frequency f).sample_rate = o.sample_rate
    ∧ (o.set_frequency f).wave_table = o.wave_table
    ∧ (o.set_frequency f).index = o.index :=
  ⟨rfl, rfl, rfl⟩

/-- C10: under `N ≥ 1` and `0 ≤ phase < N`, both table accesses of
`lerp` — at the truncated index and at its successor modulo `N` — are in
bounds, so neither `lerp` nor `get_sample` reaches the panicking
(`none`) branch. -/
theorem lerp_accesses_in_bounds (o : WavetableOscillator)
    (hN : 1 ≤ o.wave_table.length) (h0 : 0 ≤ o.index)
    (h1 : o.index < (o.wave_table.length : ℚ)) :
    toUsize o.index < o.wave_table.length
    ∧ (toUsize o.index + 1) % o.wave_table.length < o.wave_table.length
    ∧ o.lerp.isSome ∧ o.get_sample.isSome := by
  have hN' : 0 < o.wave_table.length := hN
  refine ⟨toUsize_lt hN' h1, Nat.mod_lt _ hN', ?_, ?_⟩
  · rw [lerp_some o hN' h1]
    rfl
  · rw [get_sample_eq o hN' h1]
    rfl

/-- Witness for the C10 theorem: table `[2, 4, 6]`, phase `2` (so the
wrapped access `(2 + 1) % 3 = 0` is exercised). -/
theorem lerp_accesses_in_bounds_witness :
    (1 ≤ ([2, 4, 6] : List ℚ).length ∧ (0 : ℚ) ≤ 2
        ∧ (2 : ℚ) < (([2, 4, 6] : List ℚ).length : ℚ))
    ∧ (toUsize ((2 : ℚ)) < ([2, 4, 6] : List ℚ).length
        ∧ (toUsize ((2 : ℚ)) + 1) % ([2, 4, 6] : List ℚ).length
            < ([2, 4, 6] : List ℚ).length
        ∧ (WavetableOscillator.mk 3 [2, 4, 6] 2 0).lerp.isSome
        ∧ (WavetableOscillator.mk 3 [2, 4, 6] 2 0).get_sample.isSome) :=
  ⟨⟨by norm_num, by norm_num, by norm_num⟩,
    lerp_accesses_in_bounds (WavetableOscillator.mk 3 [2, 4, 6] 2 0)
      (by norm_num) (by norm_num) (by norm_num)⟩

/-- C4 (amended): over a nonempty table, with the phase below the table
length and a per-sample step of at least one nanosecond (true for every
realistic sample rate, e.g. 44100), the bounded segment for a duration
of `d` nanoseconds emits exactly `⌈d / step⌉ = (d + step - 1) / step`
samples — positions `n` below that count yield an item, all later
positions yield `none` — where `step` is the nanosecond-quantized
`from_secs_f32(1.0 / sample_rate)`. Because `step` is the *rounded*
sample period, this count can differ from `round(d · r)` by more than
one sample (see the counterexample theorem for C4). -/
theorem duration_source_emits_ceil_count (o : WavetableOscillator) (d : ℕ)
    (hN : 0 < o.wave_table.length)
    (hidx : o.index < (o.wave_table.length : ℚ))
    (hs : 1 ≤ stepNanos o.sample_rate) :
    ∀ n : ℕ,
      (dsNth n (DurationSource.new o d)).isSome
        ↔ n < (d + stepNanos o.sample_rate - 1) / stepNanos o.sample_rate := by
  intro n
  have h1 : (dsNth n (DurationSource.new o d)).isSome
      ↔ 0 + n * stepNanos o.sample_rate < d :=
    dsNth_isSome_iff d (stepNanos o.sample_rate) n o 0 hN hidx rfl
  rw [h1, zero_add, mul_lt_iff_lt_ceilDiv hs]

/-- Witness for the C4 amended theorem: sample rate `5·10^8` (step =
2 ns), duration 5 ns, so the segment emits `⌈5/2⌉ = 3` samples. -/
theorem duration_source_emits_ceil_count_witness :
    (0 < (WavetableOscillator.mk 500000000 [0] 0 0).wave_table.length
      ∧ (WavetableOscillator.mk 500000000 [0] 0 0).index
          < ((WavetableOscillator.mk 500000000 [0] 0 0).wave_table.length : ℚ)
      ∧ 1 ≤ stepNanos (WavetableOscillator.mk 500000000 [0] 0 0).sample_rate)
    ∧ ∀ n : ℕ,
      (dsNth n (DurationSource.new (WavetableOscillator.mk 500000000 [0] 0 0) 5)).isSome
        ↔ n < (5 + stepNanos (WavetableOscillator.mk 500000000 [0] 0 0).sample_rate - 1)
                / stepNanos (WavetableOscillator.mk 500000000 [0] 0 0).sample_rate :=
  ⟨⟨by decide, by norm_num, by decide⟩,
    duration_source_emits_ceil_count (WavetableOscillator.mk 500000000 [0] 0 0) 5
      (by decide) (by norm_num) (by decide)⟩

/-- Counterexample to C4 as stated: at sample rate `r = 44100` and
duration `d = 4` s (`4·10^9` ns), `round(d · r) = 176400`, but the
per-sample step `from_secs_f32(1/44100)` is `22676` ns (the exact
period is `22675.737…` ns), so the segment emits
`⌈4·10^9 / 22676⌉ = 176398` samples: no sample count within ±1 of
`round(d · r)` characterises the emitted stream. -/
theorem duration_source_round_count_cex :
    ¬ ∃ k : ℕ,
      (∀ n : ℕ,
        (dsNth n (DurationSource.new (WavetableOscillator.new 44100 [0]) 4000000000)).isSome
          ↔ n < k)
      ∧ 176399 ≤ k ∧ k ≤ 176401 := by
  rintro ⟨k, hk, hlo, hhi⟩
  have hstep : (22676 : ℕ) = stepNanos 44100 := by decide
  have hchar : ∀ n : ℕ,
      (dsNth n ⟨WavetableOscillator.new 44100 [0], 4000000000, 0⟩).isSome
        ↔ 0 + n * 22676 < 4000000000 := fun n =>
    dsNth_isSome_iff 4000000000 22676 n (WavetableOscillator.new 44100 [0]) 0
      (by decide) (by norm_num [WavetableOscillator.new]) hstep
  have h397 : (176397 : ℕ) < k :=
    (hk 176397).mp ((hchar 176397).mpr (by norm_num))
  have h398 : ¬ (176398 : ℕ) < k := by
    intro hcon
    have hsome := (hk 176398).mpr hcon
    have hbad := (hchar 176398).mp hsome
    norm_num at hbad
  omega

/-- Counterexample to C5: the constructor accepts the empty table — it
returns a perfectly formed oscillator over a table with fewer than 2
samples instead of rejecting it. -/
theorem new_accepts_empty_table_cex :
    WavetableOscillator.new 44100 ([] : List ℚ)
      = { sample_rate := 44100, wave_table := [], index := 0, index_increment := 0 }
    ∧ (WavetableOscillator.new 44100 ([] : List ℚ)).wave_table.length < 2 :=
  ⟨rfl, by decide⟩

/-- C5 (amended): construction performs no validation at all —
`new(sample_rate, wave_table)` accepts a table of any length, including
0 and 1, and returns an oscillator holding it verbatim with phase 0 and
increment 0. The degenerate case is not prevented: over a length-0
table the very first sample draw hits the out-of-bounds/zero-modulus
panic (modelled by `none`). -/
theorem new_performs_no_validation (r : ℕ) (wt : List ℚ) :
    (WavetableOscillator.new r wt).sample_rate = r
    ∧ (WavetableOscillator.new r wt).wave_table = wt
    ∧ (WavetableOscillator.new r wt).index = 0
    ∧ (WavetableOscillator.new r wt).index_increment = 0
    ∧ (WavetableOscillator.new r ([] : List ℚ)).get_sample = none :=
  ⟨rfl, rfl, rfl, rfl, rfl⟩

/-- C6: a note name absent from the registry does not fail: it resolves
to the default 440 Hz, `play_note` configures its oscillator with that
default (increment `440 · N / 44100`), and `play_notes` still produces
one configured oscillator per requested note, so playback continues. -/
theorem unknown_note_defaults_to_440 (m : List (String × ℚ)) (note : String)
    (notes : List String) (d : ℚ) (wt : List ℚ) (durN : ℕ)
    (h : m.lookup note = none) :
    resolveNote m note = 440
    ∧ (play_note note wt m durN).source.index_increment
        = 440 * (wt.length : ℚ) / 44100
    ∧ (play_notes notes d wt m).length = notes.length := by
  have hres : resolveNote m note = 440 := by simp [resolveNote, h]
  refine ⟨hres, ?_, by simp [play_notes]⟩
  simp [play_note, DurationSource.new, WavetableOscillator.set_frequency,
    WavetableOscillator.new, hres]

/-- Witness for the C6 theorem: the unknown note `"H"` against the
standard A=440 registry. -/
theorem unknown_note_defaults_to_440_witness :
    create_note_to_freq_map.lookup "H" = none
    ∧ (resolveNote create_note_to_freq_map "H" = 440
      ∧ (play_note "H" [0, 1] create_note_to_freq_map 5).source.index_increment
          = 440 * (([0, 1] : List ℚ).length : ℚ) / 44100
      ∧ (play_notes ["H", "A"] 1 [0, 1] create_note_to_freq_map).length
          = (["H", "A"] : List String).length) :=
  ⟨by norm_num [create_note_to_freq_map]; decide,
    unknown_note_defaults_to_440 create_note_to_freq_map "H" ["H", "A"] 1 [0, 1] 5
      (by norm_num [create_note_to_freq_map]; decide)⟩

/-- Counterexample to C7: under tuning standard 432 the note `"A"` does
NOT resolve to 432 Hz — `main` never consults the 432 registry, so the
note resolves to 440 Hz from the A=440 registry. -/
theorem standard_432_resolves_to_440_cex :
    mainNoteFreq 432 "A" = some 440 ∧ (440 : ℚ) ≠ 432 := by
  constructor
  · simp [mainNoteFreq, create_note_to_freq_map, resolveNote]
    norm_num
  · norm_num

/-- C7 (amended): the two registries do define `"A"` as 440.00 Hz and
432.00 Hz respectively, but resolution is not parameterized by the
tuning standard: `main` binds the parsed standard and never uses it, so
for *every* numeric standard — 440, 432, or an unsupported value such
as 999 — the note `"A"` resolves to 440 Hz from the A=440 registry, and
no `InvalidArgument`/`UnsupportedStandard` rejection of out-of-set
standards exists (only a non-numeric argument aborts, via the parse
`expect` panic). -/
theorem note_resolution_ignores_standard :
    create_note_to_freq_map.lookup "A" = some 440
    ∧ create_note_to_freq_map_432.lookup "A" = some 432
    ∧ (∀ standard : ℕ, mainNoteFreq standard "A" = some 440)
    ∧ mainNoteFreq 999 "A" = mainNoteFreq 440 "A" := by
  refine ⟨by norm_num [create_note_to_freq_map],
    by norm_num [create_note_to_freq_map_432], ?_, rfl⟩
  intro standard
  simp [mainNoteFreq, create_note_to_freq_map, resolveNote]
  norm_num

/-- Counterexample to C8: `set_frequency(-440)` on a 64-sample table at
44100 Hz is accepted and configures the oscillator with a *negative*
increment (`-440 · 64 / 44100`), instead of failing with
`InvalidArgument`. -/
theorem set_frequency_accepts_negative_cex :
    ((WavetableOscillator.new 44100 (List.replicate 64 (0 : ℚ))).set_frequency
        (-440)).index_increment < 0 := by
  simp [WavetableOscillator.set_frequency, WavetableOscillator.new]
  norm_num

/-- C8 (amended): `set_frequency` performs no validation — it accepts a
negative frequency `f` and sets the increment to `f · N / r`, which is
negative whenever `f < 0`, `N ≥ 1` and `r ≥ 1`; no error is raised. -/
theorem set_frequency_negative_increment (o : WavetableOscillator) (f : ℚ)
    (hf : f < 0) (hN : 1 ≤ o.wave_table.length) (hr : 1 ≤ o.sample_rate) :
    (o.set_frequency f).index_increment
      = f * (o.wave_table.length : ℚ) / (o.sample_rate : ℚ)
    ∧ (o.set_frequency f).index_increment < 0 := by
  refine ⟨rfl, ?_⟩
  show f * (o.wave_table.length : ℚ) / (o.sample_rate : ℚ) < 0
  have hN' : (0 : ℚ) < (o.wave_table.length : ℚ) := by
    exact_mod_cast Nat.lt_of_lt_of_le Nat.zero_lt_one hN
  have hr' : (0 : ℚ) < (o.sample_rate : ℚ) := by
    exact_mod_cast Nat.lt_of_lt_of_le Nat.zero_lt_one hr
  exact div_neg_of_neg_of_pos (mul_neg_of_neg_of_pos hf hN') hr'

/-- Witness for the C8 amended theorem. -/
theorem set_frequency_negative_increment_witness :
    ((-440 : ℚ) < 0 ∧ 1 ≤ ([0, 0] : List ℚ).length
      ∧ 1 ≤ (WavetableOscillator.mk 44100 [0, 0] 0 0).sample_rate)
    ∧ (((WavetableOscillator.mk 44100 [0, 0] 0 0).set_frequency (-440)).index_increment
        = -440 * ((WavetableOscillator.mk 44100 [0, 0] 0 0).wave_table.length : ℚ)
            / ((WavetableOscillator.mk 44100 [0, 0] 0 0).sample_rate : ℚ)
      ∧ ((WavetableOscillator.mk 44100 [0, 0] 0 0).set_frequency (-440)).index_increment < 0) :=
  ⟨⟨by norm_num, by norm_num, by decide⟩,
    set_frequency_negative_increment (WavetableOscillator.mk 44100 [0, 0] 0 0) (-440)
      (by norm_num) (by norm_num) (by decide)⟩
